import Mathlib

/-!
Shallow embedding of the core of `school/utilities.py`:
the ANSI-escape-aware text metrics and table renderer (`Ansi`, `print_table`),
the strict dataclass loader (`Strict.from_dictionary` / `Strict._from_file`),
the interactive picker (`pick_one`) and the exit helpers
(`exit_with_error` / `exit_with_success`).

Text is modelled as `List Char` (Python `str`); machine integers are `Int`/`Nat`.
-/

/-- The ASCII escape character `\x1b` that begins every ANSI sequence. -/
def ESC : Char := '\x1b'

/-- Second alternative of the recognized escape regex: a single byte in
codes 0x40 to 0x5A or 0x5C to 0x5F directly after the escape character. -/
def isEscSingle (c : Char) : Bool :=
  (0x40 ≤ c.toNat && c.toNat ≤ 0x5A) || (0x5C ≤ c.toNat && c.toNat ≤ 0x5F)

/-- Regex class of CSI parameter bytes, codes 0x30 to 0x3F. -/
def isCSIParam (c : Char) : Bool := 0x30 ≤ c.toNat && c.toNat ≤ 0x3F

/-- Regex class of CSI intermediate bytes, codes 0x20 to 0x2F. -/
def isCSIInter (c : Char) : Bool := 0x20 ≤ c.toNat && c.toNat ≤ 0x2F

/-- Regex class of CSI final bytes, codes 0x40 to 0x7E. -/
def isCSIFinal (c : Char) : Bool := 0x40 ≤ c.toNat && c.toNat ≤ 0x7E

/-- Try to match the body of the recognized escape regex (an escape character
followed either by one single byte, or by a bracket, parameter bytes,
intermediate bytes and a final byte) on the text that follows the escape
character; on success return the remainder of the text after the match.
The three CSI byte classes are pairwise disjoint and disjoint in the relevant
positions, so maximal munch is complete and no backtracking is needed. -/
def matchCSI : List Char → Option (List Char)
  | [] => none
  | c :: rest =>
    if isEscSingle c then some rest
    else if c = '[' then
      match (rest.dropWhile isCSIParam).dropWhile isCSIInter with
      | f :: r3 => if isCSIFinal f then some r3 else none
      | [] => none
    else none

/-- Fuel-driven worker for the escape stripper (`re.sub` with the escape
regex): scan left to right, and at each escape character try to match the
regex; on a match drop the whole sequence, otherwise keep the character.
Structural in the fuel so that it evaluates by `decide`/`rfl`; a fuel of the
input length always suffices because every step consumes at least one
character. -/
def escapeFuel : Nat → List Char → List Char
  | _, [] => []
  | 0, l => l
  | fuel + 1, c :: rest =>
    if c = ESC then
      match matchCSI rest with
      | some r => escapeFuel fuel r
      | none => c :: escapeFuel fuel rest
    else c :: escapeFuel fuel rest

/-- Python `"\u001b[0m"`, the reset sequence used by every style helper. -/
def resetSeq : List Char := [ESC, '[', '0', 'm']

/-- Map `0`–`9` to the corresponding decimal digit character
(argument is always a value of `n % 10`). -/
def digitChar (n : Nat) : Char :=
  if n = 0 then '0' else if n = 1 then '1' else if n = 2 then '2'
  else if n = 3 then '3' else if n = 4 then '4' else if n = 5 then '5'
  else if n = 6 then '6' else if n = 7 then '7' else if n = 8 then '8' else '9'

/-- Fuel-driven decimal printer for `Nat` (Python `f"{color}"`). -/
def natDigitsAux : Nat → Nat → List Char → List Char
  | 0, _, acc => acc
  | fuel + 1, n, acc =>
    if n < 10 then digitChar n :: acc
    else natDigitsAux fuel (n / 10) (digitChar (n % 10) :: acc)

/-- Decimal digit string of a natural number, as Python's string formatting
produces it. -/
def natDigits (n : Nat) : List Char := natDigitsAux (n + 1) n []

/-- Python `str.ljust`: pad on the right with `fill` up to `width` characters;
a string at least `width` long is returned unchanged. -/
def pyLjust (s : List Char) (width : Nat) (fill : Char) : List Char :=
  if width ≤ s.length then s else s ++ List.replicate (width - s.length) fill

/-- Python `str.center`: CPython computes the margin `marg = width - len` and
puts `marg / 2 + (marg & width & 1)` fill characters on the left, the rest on
the right; a string at least `width` long is returned unchanged. -/
def pyCenter (s : List Char) (width : Nat) (fill : Char) : List Char :=
  if width ≤ s.length then s
  else
    let marg := width - s.length
    let left := marg / 2 + (if marg % 2 = 1 ∧ width % 2 = 1 then 1 else 0)
    List.replicate left fill ++ s ++ List.replicate (marg - left) fill

namespace Ansi

/-- `Ansi.color`: wrap `text` in `"\u001b[38;5;{c}m" ... "\u001b[0m"`. -/
def color (text : List Char) (c : Nat) : List Char :=
  [ESC, '[', '3', '8', ';', '5', ';'] ++ natDigits c ++ ['m'] ++ text ++ resetSeq

/-- `Ansi.gray`: wrap `text` in `"\u001b[38;5;240m" ... "\u001b[0m"`. -/
def gray (text : List Char) : List Char :=
  [ESC, '[', '3', '8', ';', '5', ';', '2', '4', '0', 'm'] ++ text ++ resetSeq

/-- `Ansi.bold`: wrap `text` in `"\u001b[1m" ... "\u001b[0m"`. -/
def bold (text : List Char) : List Char :=
  [ESC, '[', '1', 'm'] ++ text ++ resetSeq

/-- `Ansi.escape`: remove every match of the recognized ANSI/CSI regex. -/
def escape (text : List Char) : List Char := escapeFuel text.length text

/-- `Ansi.len`: visible width, the length after escape-sequence removal. -/
def len (text : List Char) : Nat := (escape text).length

/-- `Ansi.ljust`: left-justify to `w` *visible* characters by passing
`w + (len(text) - Ansi.len(text))` to `str.ljust`. -/
def ljust (text : List Char) (w : Nat) : List Char :=
  pyLjust text (w + (text.length - len text)) ' '

/-- `Ansi.center`: center to `w` *visible* characters (with fill character)
by passing `w + (len(text) - Ansi.len(text))` to `str.center`.  The width
argument is an `Int` because `print_table` can pass a negative value there;
Python's `str.center` treats any width `≤ len` (so also a negative one) as
"return the string unchanged", which `Int.toNat`'s clamping reproduces. -/
def center (text : List Char) (w : Int) (fill : Char) : List Char :=
  pyCenter text (w + ((text.length : Int) - (len text : Int))).toNat fill

end Ansi

/-! ## The table renderer `print_table` -/

/-- The local `column_sep = Ansi.gray(" │ ")` of `print_table`. -/
def column_sep : List Char := Ansi.gray " │ ".toList

/-- `max(len(row) for row in table)` for a nonempty table (the first row seeds
the fold); `print_table` raises before using it on an empty table. -/
def tableNcols : List (List (List Char)) → Nat
  | [] => 0
  | r :: rs => rs.foldl (fun m row => max m row.length) r.length

/-- One pass of the width loop: rows of length 1 (weekday/section rows) are
skipped, every other row bumps `column_widths[i]` to the visible width of its
`i`-th entry when that is larger. -/
def updateWidths (ws : List Nat) (row : List (List Char)) : List Nat :=
  if row.length == 1 then ws
  else ws.mapIdx (fun i w =>
    match row.get? i with
    | some e => max w (Ansi.len e)
    | none => w)

/-- `column_widths`: start from `[0] * ncols` and fold the width loop over
all rows. -/
def tableWidths (table : List (List (List Char))) : List Nat :=
  table.foldl updateWidths (List.replicate (tableNcols table) 0)

/-- `max_row_width = sum(column_widths) + Ansi.len(column_sep) *
(len(column_widths) - 1)`, computed in `Int` because Python evaluates
`len(column_widths) - 1` to `-1` on a zero-column table. -/
def maxRowWidth (ws : List Nat) : Int :=
  ((ws.foldl (· + ·) 0 : Nat) : Int) +
    (Ansi.len column_sep : Int) * ((ws.length : Int) - 1)

/-- The inner cell loop of a data row: each entry is left-justified to its
column width and followed by the separator, except the last entry which is
followed by the closing border and a newline. -/
def renderCells (ws : List Nat) (row : List (List Char)) : List Char :=
  (row.mapIdx (fun j entry =>
    Ansi.ljust entry (ws.getD j 0) ++
    (if j == row.length - 1 then " │\n".toList else column_sep))).flatten

/-- One iteration of the row loop of `print_table`: the left border prefix
(`"╭─"` for the first row, `"│ "` otherwise), then either the special
single-entry (section) rendering or the cell loop. -/
def renderRow (ws : List Nat) (mrw : Int) (i : Nat) (row : List (List Char)) :
    List Char :=
  (if i == 0 then "╭─".toList else "│ ".toList) ++
  match row with
  | [single] =>
    (if i == 0 then [] else
      (List.replicate mrw.toNat ' ' ++ " │\n├─".toList)) ++
    Ansi.center (Ansi.bold ("\x7b ".toList ++ single ++ " \x7d".toList)) mrw '─' ++
    (if i == 0 then "─╮".toList else "─┤".toList) ++ ['\n']
  | _ => renderCells ws row

/-- `print_table`: on an empty table `max()` raises `ValueError` before any
output; otherwise the rendered rows followed by the bottom border
`"╰" + "─" * (max_row_width + 2) + "╯"`. The result is the full text written
to standard output. -/
def print_table (table : List (List (List Char))) : Except String (List Char) :=
  match table with
  | [] => .error "ValueError: max() arg is an empty sequence"
  | _ :: _ =>
    let ws := tableWidths table
    let mrw := maxRowWidth ws
    .ok ((table.enum.map (fun p => renderRow ws mrw p.1 p.2)).flatten
      ++ "╰".toList ++ List.replicate (mrw + 2).toNat '─' ++ "╯\n".toList)

/-- Observer: `true` exactly when a call completed without raising. -/
def exceptOk {ε α : Type} : Except ε α → Bool
  | .ok _ => true
  | .error _ => false

/-- Observer: number of newline characters, i.e. of printed lines (every
printed line of `print_table` ends in a newline). -/
def countNL (l : List Char) : Nat := l.countP (fun c => c == '\n')

/-- Observer: line count of a successful `print_table` call. -/
def tableLineCount (table : List (List (List Char))) : Option Nat :=
  match print_table table with
  | .ok out => some (countNL out)
  | .error _ => none

/-! ## The strict dataclass loader `Strict` -/

/-- Runtime values of the scalar configuration universe the loader claims are
about: string, int, bool and `None`.  (Sequences and nested mappings of the
real configuration files are outside this model; none of the checked claims
involves them.) -/
inductive Value where
  | vstr (s : String)
  | vint (n : Int)
  | vbool (b : Bool)
  | vnone
deriving DecidableEq, Repr

/-- Declared field type hints: scalar kinds and `Optional[t]`. -/
inductive Ty where
  | strT
  | intT
  | boolT
  | opt (t : Ty)
deriving DecidableEq, Repr

/-- `check_type` / `typesentry.Config().is_type`: does the runtime value match
the declared type hint?  `Optional[t]` accepts `None` or a `t`; a Python
`bool` also matches `int` (it is a subclass). -/
def check_type : Value → Ty → Bool
  | .vstr _, .strT => true
  | .vint _, .intT => true
  | .vbool _, .boolT => true
  | .vbool _, .intT => true
  | .vnone, .opt _ => true
  | v, .opt t => check_type v t
  | _, _ => false

/-- One declared dataclass field: its name, type hint and, when the field is
declared with a default, that default value (`none` = required field). -/
structure FieldDecl where
  name : String
  ty : Ty
  dflt : Option Value
deriving DecidableEq, Repr

/-- The exceptions `_from_dictionary` and `__post_init__` can raise:
`fieldtypes[f]` raises `KeyError` for an undeclared key, the dataclass call
raises `TypeError` for a missing required argument, and `__post_init__`
raises `TypeError` on a type mismatch. -/
inductive PyErr where
  | keyError (k : String)
  | typeErrorMissing (fieldName : String)
  | typeErrorMismatch (fieldName : String) (expected : Ty) (got : Value)
deriving DecidableEq, Repr

/-- Lookup in the `fieldtypes` dictionary `{f.name: f.type for f in fields(c)}`. -/
def lookupField (fs : List FieldDecl) (k : String) : Option FieldDecl :=
  fs.find? (fun fd => fd.name == k)

/-- The dict comprehension `{f: ... for f in d}`: iterating the raw mapping in
order, `fieldtypes[f]` raises `KeyError` at the first key that is not a
declared field (for non-dataclass field types the recursion returns the raw
value unchanged, so the comprehension has no other effect). -/
def checkKeys (fs : List FieldDecl) : List (String × Value) → Except PyErr Unit
  | [] => .ok ()
  | (k, _) :: rest =>
    match lookupField fs k with
    | some _ => checkKeys fs rest
    | none => .error (.keyError k)

/-- The dataclass call `c(**kwargs)`: bind every declared field, in declaration
order, to the raw mapping's value or to the field's default; a required field
with no raw value raises `TypeError` (missing argument). -/
def bindArgs : List FieldDecl → List (String × Value) →
    Except PyErr (List (String × Value))
  | [], _ => .ok []
  | fd :: rest, d =>
    match d.lookup fd.name, fd.dflt with
    | some v, _ => (bindArgs rest d).map (fun vs => (fd.name, v) :: vs)
    | none, some dv => (bindArgs rest d).map (fun vs => (fd.name, dv) :: vs)
    | none, none => .error (.typeErrorMissing fd.name)

/-- `Strict.__post_init__`: for every annotated field, in order, raise
`TypeError` when the bound value is not `None` and does not match the declared
type hint.  A `None` value is never checked. -/
def postInit : List FieldDecl → List (String × Value) → Except PyErr Unit
  | [], _ => .ok ()
  | fd :: rest, vals =>
    let v := (vals.lookup fd.name).getD Value.vnone
    if v ≠ Value.vnone ∧ check_type v fd.ty = false then
      .error (.typeErrorMismatch fd.name fd.ty v)
    else postInit rest vals

/-- `Strict.from_dictionary` (via `_from_dictionary` on a dataclass): run the
comprehension, call the constructor, run the post-init check, and return the
constructed record (its fields in declaration order). -/
def from_dictionary (fs : List FieldDecl) (d : List (String × Value)) :
    Except PyErr (List (String × Value)) := do
  checkKeys fs d
  let vals ← bindArgs fs d
  postInit fs vals
  pure vals

/-- `Strict._from_file`, after parsing: `safe_load` yields `None` for an empty
document and `or {}` turns that into the empty mapping, which is then loaded
with `from_dictionary`. The parse outcome is the explicit argument. -/
def from_file (parsed : Option (List (String × Value)))
    (fs : List FieldDecl) : Except PyErr (List (String × Value)) :=
  from_dictionary fs (parsed.getD [])

/-- The raw mapping's first key that is not a declared field, if any. -/
def firstExtraKey (fs : List FieldDecl) (d : List (String × Value)) :
    Option String :=
  (d.find? (fun p => (lookupField fs p.1).isNone)).map (fun p => p.1)

/-! ## The interactive picker `pick_one` and the exit helpers -/

/-- Whitespace stripped by Python `int(str)`: space, tab and the ASCII line
break characters (the ASCII part of `str.strip`). -/
def isPySpace (c : Char) : Bool :=
  c = ' ' || c = '\t' || c = '\n' || c = '\r' || c = '\x0b' || c = '\x0c'

/-- Strip `isPySpace` characters from both ends. -/
def stripEnds (l : List Char) : List Char :=
  ((l.dropWhile isPySpace).reverse.dropWhile isPySpace).reverse

/-- Digit run of a Python integer literal after the first digit: plain digits,
with single underscores allowed between digits only. -/
def parseDigitsU : Nat → List Char → Option Nat
  | acc, [] => some acc
  | acc, c :: rest =>
    if c.isDigit then parseDigitsU (acc * 10 + (c.toNat - 48)) rest
    else if c = '_' then
      match rest with
      | d :: rest2 =>
        if d.isDigit then parseDigitsU (acc * 10 + (d.toNat - 48)) rest2
        else none
      | [] => none
    else none

/-- An unsigned Python integer literal: a nonempty digit run that starts and
ends with a digit. -/
def parsePyNat : List Char → Option Nat
  | [] => none
  | c :: rest => if c.isDigit then parseDigitsU (c.toNat - 48) rest else none

/-- Python `int(val)` on one input line: strip surrounding whitespace, allow a
single leading sign, then parse a decimal digit run (underscore separators
included); everything else raises `ValueError`, modelled as `none`. -/
def pythonInt (s : String) : Option Int :=
  match stripEnds s.toList with
  | '+' :: rest => (parsePyNat rest).map (fun n => (n : Int))
  | '-' :: rest => (parsePyNat rest).map (fun n => -(n : Int))
  | l => (parsePyNat l).map (fun n => (n : Int))

/-- Outcome of `pick_one`: either an element is returned, or end-of-input was
reached in the read loop and the whole process exits via `sys.exit(0)`. -/
inductive PickResult (α : Type) where
  | picked (a : α)
  | exitZero
deriving DecidableEq, Repr

/-- The `while True` read loop of `pick_one` over the remaining input lines.
An empty line selects index 0, any other line goes through `int(val) - 1`;
a `ValueError` (unparseable line) and an out-of-range index both `continue`;
exhausting the input (`EOFError`) breaks out to `sys.exit(0)`. -/
def pickLoop {α : Type} (l : List α) : List String → PickResult α
  | [] => .exitZero
  | line :: rest =>
    match (if line = "" then some 0 else (pythonInt line).map (fun n => n - 1)) with
    | none => pickLoop l rest
    | some index =>
      if h : 0 ≤ index ∧ index < (l.length : Int) then
        .picked (l.get ⟨index.toNat, by omega⟩)
      else pickLoop l rest

/-- `pick_one`: a single-element list is returned at once, before any of the
input is read; otherwise the read loop runs on the input lines. -/
def pick_one {α : Type} (l : List α) (input : List String) : PickResult α :=
  if h : l.length = 1 then .picked (l.get ⟨0, by omega⟩) else pickLoop l input

/-- The exit code produced when a `pick_one` outcome ends the process:
`sys.exit(0)` on end-of-input; a picked element returns normally (no exit). -/
def pickExitCode {α : Type} : PickResult α → Option Nat
  | .picked _ => none
  | .exitZero => some 0

/-- `exit_with_error`: the line printed to standard output (a red bold
`ERROR`, the optional path, a colon and the message) and the process exit
code from `sys.exit(1)`. -/
def exit_with_error (message : String) (path : Option String) :
    List Char × Nat :=
  let msg₀ := Ansi.color (Ansi.bold "ERROR".toList) 9
  let msg₁ := match path with
    | some p => msg₀ ++ Ansi.color (" in ".toList ++ p.toList) 9
    | none => msg₀
  (msg₁ ++ Ansi.color ":".toList 9 ++ " ".toList ++ message.toList ++ ['\n'], 1)

/-- `exit_with_success`: the printed line and the exit code from `sys.exit(0)`. -/
def exit_with_success (message : String) : List Char × Nat :=
  (Ansi.color "SUCCESS: ".toList 10 ++ message.toList ++ ['\n'], 0)

/-! ## Helper lemmas -/

theorem matchCSI_length (l r : List Char) (h : matchCSI l = some r) :
    r.length ≤ l.length := by
  cases l with
  | nil => simp [matchCSI] at h
  | cons c rest =>
    simp only [matchCSI] at h
    by_cases h1 : isEscSingle c
    · simp only [h1, if_pos] at h
      cases h
      simp
    · simp only [h1, Bool.false_eq_true, if_false] at h
      by_cases h2 : c = '['
      · simp only [h2, if_pos] at h
        cases hd : (rest.dropWhile isCSIParam).dropWhile isCSIInter with
        | nil => rw [hd] at h; cases h
        | cons f r3 =>
          rw [hd] at h
          by_cases h3 : isCSIFinal f
          · simp only [h3, if_pos] at h
            cases h
            have d1 : ((rest.dropWhile isCSIParam).dropWhile isCSIInter).length ≤
                (rest.dropWhile isCSIParam).length :=
              (List.dropWhile_suffix _).length_le
            have d2 : (rest.dropWhile isCSIParam).length ≤ rest.length :=
              (List.dropWhile_suffix _).length_le
            rw [hd] at d1
            simp only [List.length_cons] at d1 ⊢
            omega
          · simp [h3] at h
      · simp [h2] at h

theorem escapeFuel_eq : ∀ (f1 f2 : Nat) (l : List Char),
    l.length ≤ f1 → l.length ≤ f2 → escapeFuel f1 l = escapeFuel f2 l := by
  intro f1
  induction f1 with
  | zero =>
    intro f2 l h1 _
    cases l with
    | nil => cases f2 <;> rfl
    | cons c rest => simp at h1
  | succ g1 ih =>
    intro f2 l h1 h2
    cases l with
    | nil => cases f2 <;> rfl
    | cons c rest =>
      simp only [List.length_cons] at h1 h2
      cases f2 with
      | zero => omega
      | succ g2 =>
        simp only [escapeFuel]
        by_cases hc : c = ESC
        · simp only [hc, if_pos]
          cases hm : matchCSI rest with
          | some r =>
            have hr := matchCSI_length rest r hm
            exact ih g2 r (by omega) (by omega)
          | none =>
            exact congrArg (ESC :: ·) (ih g2 rest (by omega) (by omega))
        · simp only [hc, if_false]
          exact congrArg (c :: ·) (ih g2 rest (by omega) (by omega))

theorem digitChar_param (n : Nat) : isCSIParam (digitChar n) = true := by
  unfold digitChar
  repeat' split
  all_goals decide

theorem natDigitsAux_param : ∀ (fuel n : Nat) (acc : List Char),
    (∀ c ∈ acc, isCSIParam c = true) →
    ∀ c ∈ natDigitsAux fuel n acc, isCSIParam c = true := by
  intro fuel
  induction fuel with
  | zero =>
    intro n acc hacc c hc
    simp only [natDigitsAux] at hc
    exact hacc c hc
  | succ f ih =>
    intro n acc hacc c hc
    simp only [natDigitsAux] at hc
    by_cases h : n < 10
    · rw [if_pos h] at hc
      rcases List.mem_cons.mp hc with h' | h'
      · rw [h']; exact digitChar_param n
      · exact hacc c h'
    · rw [if_neg h] at hc
      refine ih (n / 10) (digitChar (n % 10) :: acc) ?_ c hc
      intro x hx
      rcases List.mem_cons.mp hx with h' | h'
      · rw [h']; exact digitChar_param (n % 10)
      · exact hacc x h'

theorem natDigits_param (n : Nat) : ∀ c ∈ natDigits n, isCSIParam c = true :=
  natDigitsAux_param (n + 1) n [] (by simp)

theorem escape_nil : Ansi.escape [] = [] := rfl

theorem escape_cons_not_esc (c : Char) (rest : List Char) (h : ¬ c = ESC) :
    Ansi.escape (c :: rest) = c :: Ansi.escape rest := by
  simp only [Ansi.escape, List.length_cons, escapeFuel, h, if_false]

theorem escape_esc_match (rest r : List Char) (h : matchCSI rest = some r) :
    Ansi.escape (ESC :: rest) = Ansi.escape r := by
  simp only [Ansi.escape, List.length_cons, escapeFuel, if_pos, h]
  exact escapeFuel_eq rest.length r.length r (matchCSI_length rest r h) le_rfl

theorem escape_append_plain (s t : List Char) (h : ∀ c ∈ s, ¬ c = ESC) :
    Ansi.escape (s ++ t) = s ++ Ansi.escape t := by
  induction s with
  | nil => simp
  | cons c rest ih =>
    rw [List.cons_append, escape_cons_not_esc c _ (h c (by simp)),
      ih (fun x hx => h x (by simp [hx]))]
    simp

theorem escape_plain (s : List Char) (h : ∀ c ∈ s, ¬ c = ESC) :
    Ansi.escape s = s := by
  have := escape_append_plain s [] h
  simpa [escape_nil] using this

theorem len_plain (s : List Char) (h : ∀ c ∈ s, ¬ c = ESC) :
    Ansi.len s = s.length := by
  rw [Ansi.len, escape_plain s h]

theorem dropWhile_param_append (p t : List Char)
    (hp : ∀ c ∈ p, isCSIParam c = true) :
    List.dropWhile isCSIParam (p ++ 'm' :: t) = 'm' :: t := by
  induction p with
  | nil =>
    simp only [List.nil_append, List.dropWhile_cons]
    rw [show isCSIParam 'm' = false from by decide]
    simp
  | cons c rest ih =>
    rw [List.cons_append, List.dropWhile_cons]
    rw [hp c (by simp)]
    simp only [if_pos]
    exact ih (fun x hx => hp x (by simp [hx]))

theorem escape_csi (p t : List Char) (hp : ∀ c ∈ p, isCSIParam c = true) :
    Ansi.escape (ESC :: '[' :: (p ++ 'm' :: t)) = Ansi.escape t := by
  apply escape_esc_match
  simp only [matchCSI]
  simp only [show isEscSingle '[' = false from by decide, Bool.false_eq_true,
    if_false, if_true]
  rw [dropWhile_param_append p t hp]
  rw [List.dropWhile_cons]
  rw [show isCSIInter 'm' = false from by decide]
  simp only [Bool.false_eq_true, if_false]
  rw [show isCSIFinal 'm' = true from by decide]
  simp

theorem bindArgs_nil : ∀ (fs : List FieldDecl), (∀ fd ∈ fs, fd.dflt.isSome) →
    bindArgs fs [] = .ok (fs.map fun fd => (fd.name, fd.dflt.getD Value.vnone)) := by
  intro fs h
  induction fs with
  | nil => rfl
  | cons fd rest ih =>
    obtain ⟨dv, hdv⟩ := Option.isSome_iff_exists.mp (h fd (by simp))
    simp only [bindArgs, List.lookup, hdv]
    rw [ih (fun x hx => h x (by simp [hx]))]
    simp [Except.map, hdv]

theorem postInit_ok (fs : List FieldDecl) (vals : List (String × Value))
    (h : ∀ fd ∈ fs, ((vals.lookup fd.name).getD Value.vnone) = Value.vnone ∨
      check_type ((vals.lookup fd.name).getD Value.vnone) fd.ty = true) :
    postInit fs vals = .ok () := by
  induction fs with
  | nil => rfl
  | cons fd rest ih =>
    simp only [postInit]
    rw [if_neg]
    · exact ih (fun x hx => h x (by simp [hx]))
    · rcases h fd (by simp) with h' | h'
      · intro hcon; exact hcon.1 h'
      · intro hcon; rw [h'] at hcon; exact Bool.true_eq_false ▸ hcon.2 ▸ rfl

theorem lookup_map_name (f : FieldDecl → Value) :
    ∀ (fs : List FieldDecl) (fd : FieldDecl), fd ∈ fs →
    (fs.map FieldDecl.name).Nodup →
    (fs.map (fun x => (x.name, f x))).lookup fd.name = some (f fd) := by
  intro fs
  induction fs with
  | nil => intro fd h; cases h
  | cons g rest ih =>
    intro fd hmem hnd
    rcases List.mem_cons.mp hmem with h | h
    · subst h
      simp [List.lookup]
    · have hgn : g.name ∉ rest.map FieldDecl.name :=
        (List.nodup_cons.mp (by simpa using hnd)).1
      have hne : (fd.name == g.name) = false := by
        apply beq_eq_false_iff_ne.mpr
        intro he
        refine hgn ?_
        rw [← he]
        exact List.mem_map_of_mem FieldDecl.name h
      simp only [List.map_cons, List.lookup, hne]
      exact ih fd h (List.nodup_cons.mp (by simpa using hnd)).2

theorem checkKeys_extra : ∀ (fs : List FieldDecl) (d : List (String × Value))
    (k : String), firstExtraKey fs d = some k →
    checkKeys fs d = .error (.keyError k) := by
  intro fs d
  induction d with
  | nil => intro k h; simp [firstExtraKey] at h
  | cons p rest ih =>
    intro k h
    unfold firstExtraKey at h
    simp only [List.find?] at h
    cases he : lookupField fs p.1 with
    | none =>
      rw [he] at h
      simp only [Option.isNone_none] at h
      simp only [Option.map_some'] at h
      obtain ⟨k0, v0⟩ := p
      cases h
      simp only [checkKeys]
      rw [show lookupField fs k0 = none from he]
    | some fd =>
      rw [he] at h
      simp only [Option.isNone_some] at h
      obtain ⟨k0, v0⟩ := p
      simp only [checkKeys]
      rw [show lookupField fs k0 = some fd from he]
      exact ih k h

/-! ## Claims -/

/-- C1 counterexample: the table with the single DataRow `["a", "bb"]` is
printed on exactly 2 lines, not 3 — the top-left corner `"╭─"` is fused onto
the content line, so no standalone top border line exists. -/
theorem C1_counterexample :
    tableLineCount [["a".toList, "bb".toList]] = some 2 ∧
    tableLineCount [["a".toList, "bb".toList]] ≠ some 3 := by
  constructor
  · rfl
  · decide

/-- C1 (amended): rendering the table with the single DataRow `["a", "bb"]`
and no SectionRow emits exactly 2 printed lines — a content line that begins
with the top-left border corner and a bottom border line — with computed
column widths 1 and 2. -/
theorem C1_single_datarow_render :
    print_table [["a".toList, "bb".toList]] =
      .ok "╭─a\x1b[38;5;240m │ \x1b[0mbb │\n╰────────╯\n".toList ∧
    tableWidths [["a".toList, "bb".toList]] = [1, 2] ∧
    tableLineCount [["a".toList, "bb".toList]] = some 2 :=
  ⟨rfl, rfl, rfl⟩

/-- C4 counterexample: a table whose DataRows have inconsistent column counts
(3 cells and 2 cells) is rendered without any assertion or exception — the
call completes and produces output. -/
theorem C4_counterexample :
    exceptOk (print_table [["a".toList, "b".toList, "c".toList],
      ["d".toList, "e".toList]]) = true := rfl

/-- C4 (amended): `print_table` performs no arity check at all: every call on
a nonempty table — including one whose DataRows have mismatched lengths —
completes without raising, silently producing output sized by the longest
row. -/
theorem C4_no_arity_check (r : List (List Char))
    (rs : List (List (List Char))) :
    exceptOk (print_table (r :: rs)) = true := rfl

/-- C10: `print_table` is partial on the empty input: called with an empty
sequence of rows it raises `ValueError` (the `max()` of an empty sequence)
before printing anything, so every successful call requires at least one
row. -/
theorem C10_empty_table_raises :
    print_table [] = .error "ValueError: max() arg is an empty sequence" ∧
    (∀ (table : List (List (List Char))) (out : List Char),
      print_table table = .ok out → 1 ≤ table.length) := by
  refine ⟨rfl, ?_⟩
  intro table out h
  cases table with
  | nil => simp [print_table] at h
  | cons r rs => simp

/-- C10 witness: a concrete one-row table renders successfully, and the
theorem's second part applies to it. -/
theorem C10_witness : 1 ≤ ([["a".toList]] : List (List (List Char))).length :=
  C10_empty_table_raises.2 [["a".toList]]
    "╭─\x1b[1m\x7b a \x7d\x1b[0m─╮\n╰──╯\n".toList rfl

/-- C2 counterexample: loading `{"color": 1, "extra": 2}` into a record
declaring only the int field `color` does *not* ignore the extra key: the
load raises `KeyError` instead of succeeding, while the same mapping without
the extra key loads fine. -/
theorem C2_counterexample :
    exceptOk (from_dictionary [⟨"color", Ty.intT, none⟩]
      [("color", Value.vint 1), ("extra", Value.vint 2)]) = false ∧
    from_dictionary [⟨"color", Ty.intT, none⟩] [("color", Value.vint 1)] =
      .ok [("color", Value.vint 1)] :=
  ⟨rfl, rfl⟩

/-- C2 (amended): a raw mapping containing a key that is not a declared field
of the target record type makes the load fail with `KeyError` on the first
such key (surfaced as the "Invalid key" error), rather than being ignored. -/
theorem C2_extra_key_fails (fs : List FieldDecl) (d : List (String × Value))
    (k : String) (h : firstExtraKey fs d = some k) :
    from_dictionary fs d = .error (.keyError k) := by
  have hc := checkKeys_extra fs d k h
  unfold from_dictionary
  rw [hc]
  rfl

/-- C2 witness: the amended theorem applied to the concrete record and
mapping of the counterexample. -/
theorem C2_witness :
    from_dictionary [⟨"color", Ty.intT, none⟩]
      [("color", Value.vint 1), ("extra", Value.vint 2)] =
      .error (.keyError "extra") :=
  C2_extra_key_fails _ _ _ (by decide)

/-- C3 counterexample: a record whose only field `x` is a required
(non-optional) `int` accepts the raw mapping `{"x": None}` — the load
succeeds with `x = None` instead of failing with a type mismatch. -/
theorem C3_counterexample :
    from_dictionary [⟨"x", Ty.intT, none⟩] [("x", Value.vnone)] =
      .ok [("x", Value.vnone)] := rfl

/-- C3 (amended): a null raw value is accepted for *every* field, whether or
not the field is declared optional: `__post_init__` skips the type check
whenever the value is `None`, so a single-field record of any type hint and
any default declaration loads `{name: None}` successfully. -/
theorem C3_null_always_accepted (nm : String) (t : Ty) (dfl : Option Value) :
    from_dictionary [⟨nm, t, dfl⟩] [(nm, Value.vnone)] =
      .ok [(nm, Value.vnone)] := by
  have h1 : lookupField [⟨nm, t, dfl⟩] nm = some ⟨nm, t, dfl⟩ := by
    simp [lookupField, List.find?]
  have h2 : List.lookup nm [(nm, Value.vnone)] = some Value.vnone := by
    simp [List.lookup]
  unfold from_dictionary
  simp only [checkKeys, h1, bindArgs, h2]
  cases dfl <;>
    simp [postInit, h2, Except.map, checkKeys, Except.pure, pure, Bind.bind,
      Except.bind]

/-- C6: loading an empty document (`safe_load` yields `None`, `or {}` makes it
the empty mapping) against a record type in which every field is optional
(declared with a default that is `None` or matches its type hint, as Python
optional fields are) succeeds without error and returns the record with every
field at its default value. -/
theorem C6_empty_doc_all_optional (fs : List FieldDecl)
    (hnodup : (fs.map FieldDecl.name).Nodup)
    (hopt : ∀ fd ∈ fs, fd.dflt.isSome ∧
      ((fd.dflt.getD Value.vnone) = Value.vnone ∨
        check_type (fd.dflt.getD Value.vnone) fd.ty = true)) :
    from_file none fs =
      .ok (fs.map fun fd => (fd.name, fd.dflt.getD Value.vnone)) := by
  have hb := bindArgs_nil fs (fun fd hfd => (hopt fd hfd).1)
  have hp : postInit fs (fs.map fun fd => (fd.name, fd.dflt.getD Value.vnone))
      = .ok () := by
    apply postInit_ok
    intro fd hfd
    rw [lookup_map_name (fun fd => fd.dflt.getD Value.vnone) fs fd hfd hnodup]
    simpa using (hopt fd hfd).2
  have e1 : from_file none fs =
      Except.bind (bindArgs fs [])
        (fun vals => Except.bind (postInit fs vals) (fun _ => Except.ok vals)) :=
    rfl
  rw [e1, hb]
  have e2 : Except.bind
      (Except.ok (fs.map fun fd => (fd.name, fd.dflt.getD Value.vnone)))
      (fun vals => Except.bind (postInit fs vals) (fun _ => Except.ok vals)) =
      Except.bind
        (postInit fs (fs.map fun fd => (fd.name, fd.dflt.getD Value.vnone)))
        (fun _ =>
          Except.ok (fs.map fun fd => (fd.name, fd.dflt.getD Value.vnone))) :=
    rfl
  rw [e2, hp]
  rfl

/-- C6 witness: a two-field all-optional record loads from the empty document
to a record with both fields `None`. -/
theorem C6_witness :
    from_file none [⟨"color", Ty.opt Ty.intT, some Value.vnone⟩,
      ⟨"room", Ty.opt Ty.strT, some Value.vnone⟩] =
      .ok [("color", Value.vnone), ("room", Value.vnone)] := by
  have h := C6_empty_doc_all_optional
    [⟨"color", Ty.opt Ty.intT, some Value.vnone⟩,
      ⟨"room", Ty.opt Ty.strT, some Value.vnone⟩] (by decide) (by decide)
  exact h

/-- C5 counterexample: centering the plain string `"ab"` to width 5 (margin 3,
odd) puts 2 fill characters on the *leading* side and only 1 on the trailing
side — Python's `str.center` puts the odd remainder on the left whenever the
target width is odd, contradicting "odd remainder on the trailing side". -/
theorem C5_counterexample :
    Ansi.center "ab".toList (5 : Int) ' ' = "  ab ".toList ∧
    Ansi.center "ab".toList (5 : Int) ' ' ≠ " ab  ".toList := by
  constructor
  · rfl
  · decide

/-- C5 (amended): for a plain string `s` and a target width `w` strictly
greater than the visible width of `s` with an odd margin, center-padding
places the odd remainder space on the trailing side exactly when `w` is even;
when `w` is odd the remainder goes to the leading side (CPython's rule
puts `marg / 2 + (marg AND width AND 1)` fill characters on the left). -/
theorem C5_center_odd_remainder (s : List Char) (w : Nat) (fill : Char)
    (hplain : ∀ c ∈ s, ¬ c = ESC) (hlt : s.length < w)
    (hodd : (w - s.length) % 2 = 1) :
    Ansi.center s (w : Int) fill =
      List.replicate ((w - s.length) / 2 + (if w % 2 = 1 then 1 else 0)) fill
        ++ s ++
      List.replicate ((w - s.length) / 2 + (if w % 2 = 0 then 1 else 0))
        fill := by
  have hlen : Ansi.len s = s.length := len_plain s hplain
  unfold Ansi.center
  rw [hlen]
  rw [show ((w : Int) + ((s.length : Int) - (s.length : Int))).toNat = w by
    omega]
  unfold pyCenter
  rw [if_neg (by omega)]
  simp only [hodd, true_and]
  by_cases hw2 : w % 2 = 1
  · rw [if_pos hw2, if_neg (show ¬ w % 2 = 0 by omega)]
    have e1 : w - s.length - ((w - s.length) / 2 + 1) =
        (w - s.length) / 2 + 0 := by omega
    rw [e1]
  · rw [if_neg hw2, if_pos (show w % 2 = 0 by omega)]
    have e1 : w - s.length - ((w - s.length) / 2 + 0) =
        (w - s.length) / 2 + 1 := by omega
    rw [e1]

/-- C5 witness: the amended theorem at `s = "ab"`, `w = 5` evaluates to
`"  ab "`. -/
theorem C5_witness :
    Ansi.center "ab".toList (((5 : Nat)) : Int) ' ' = "  ab ".toList := by
  have h := C5_center_odd_remainder "ab".toList 5 ' ' (by decide) (by decide)
    (by decide)
  exact h.trans (by decide)

/-- C7: stripping the recognized escape sequences from a colorized plain
string recovers the string exactly: for every `s` without escape characters
and every color index `c`, `Ansi.escape (Ansi.color s c) = s`. -/
theorem C7_strip_colorize_roundtrip (s : List Char) (c : Nat)
    (h : ∀ ch ∈ s, ¬ ch = ESC) :
    Ansi.escape (Ansi.color s c) = s := by
  have hshape : Ansi.color s c =
      ESC :: '[' :: (('3' :: '8' :: ';' :: '5' :: ';' :: natDigits c) ++
        'm' :: (s ++ resetSeq)) := by
    unfold Ansi.color
    simp [List.append_assoc]
  rw [hshape]
  rw [escape_csi _ _ ?hp]
  case hp =>
    intro x hx
    simp only [List.mem_cons] at hx
    rcases hx with h' | h' | h' | h' | h' | h'
    · rw [h']; decide
    · rw [h']; decide
    · rw [h']; decide
    · rw [h']; decide
    · rw [h']; decide
    · exact natDigits_param c x h'
  rw [escape_append_plain s resetSeq h]
  rw [show Ansi.escape resetSeq = [] from rfl]
  simp

/-- C7 witness: the round-trip at `s = "hello"`, color 9. -/
theorem C7_witness :
    Ansi.escape (Ansi.color "hello".toList 9) = "hello".toList :=
  C7_strip_colorize_roundtrip "hello".toList 9 (by decide)

/-- C8: behavior of `pick_one`. (1) A single-element list is returned at once,
whatever the input stream holds (no input is consumed). (2) With two or more
elements, a blank first line selects the first element. (3) A line that parses
as an integer `n` with `1 ≤ n ≤ len` selects element `n - 1`. (4) Any other
line — unparseable, or parsing to an out-of-range integer — is skipped
silently and the loop continues with the next line. (5) Concretely, input
`"9"` then `"1"` on `["x", "y"]` yields `"x"`. -/
theorem C8_pick_one_behavior :
    (∀ (a : String) (input : List String), pick_one [a] input = .picked a) ∧
    (∀ (x y : String) (ys : List String) (rest : List String),
      pick_one (x :: y :: ys) ("" :: rest) = .picked x) ∧
    (∀ (l : List String) (line : String) (n : Int) (rest : List String)
      (hparse : pythonInt line = some n) (h1 : 1 ≤ n)
      (h2 : (n - 1).toNat < l.length),
      pick_one l (line :: rest) = .picked (l.get ⟨(n - 1).toNat, h2⟩)) ∧
    (∀ (l : List String) (line : String) (rest : List String),
      l.length ≠ 1 → ¬ line = "" →
      (pythonInt line = none ∨
        ∃ n, pythonInt line = some n ∧ (n < 1 ∨ (l.length : Int) < n)) →
      pick_one l (line :: rest) = pick_one l rest) ∧
    pick_one ["x", "y"] ["9", "1"] = .picked "x" := by
  refine ⟨?_, ?_, ?_, ?_, ?_⟩
  · intro a input
    simp [pick_one]
  · intro x y ys rest
    unfold pick_one
    rw [dif_neg (by simp)]
    unfold pickLoop
    simp only [if_pos]
    rw [dif_pos ⟨le_refl 0, by simp; omega⟩]
    rfl
  · intro l line n rest hparse h1 h2
    unfold pick_one
    by_cases hl : l.length = 1
    · rw [dif_pos hl]
      have he : (⟨0, by omega⟩ : Fin l.length) = ⟨(n - 1).toNat, h2⟩ :=
        Fin.ext (by omega)
      rw [he]
    · rw [dif_neg hl]
      unfold pickLoop
      have hline : ¬ line = "" := by
        intro he
        rw [he] at hparse
        rw [show pythonInt "" = none from rfl] at hparse
        simp at hparse
      rw [if_neg hline, hparse]
      simp only [Option.map_some']
      rw [dif_pos ⟨by omega, by omega⟩]
  · intro l line rest hl hline hbad
    have hR : pick_one l rest = pickLoop l rest := by
      unfold pick_one
      rw [dif_neg hl]
    have hL : pick_one l (line :: rest) = pickLoop l (line :: rest) := by
      unfold pick_one
      rw [dif_neg hl]
    rw [hL, hR]
    conv_lhs => unfold pickLoop
    rw [if_neg hline]
    rcases hbad with hnone | ⟨n, hn, hout⟩
    · rw [hnone]
      simp only [Option.map_none']
    · rw [hn]
      simp only [Option.map_some']
      rw [dif_neg (by omega)]
  · rfl

/-- C8 witness: the universally quantified parts applied at concrete inputs —
input `"2"` on `["x", "y"]` picks `"y"`, and the out-of-range input `"9"` is
skipped so that the loop continues with the rest of the input. -/
theorem C8_witness :
    pick_one ["x", "y"] ["2"] = .picked "y" ∧
    pick_one ["x", "y"] ["9", "1"] = pick_one ["x", "y"] ["1"] := by
  constructor
  · have h := C8_pick_one_behavior.2.2.1 ["x", "y"] "2" 2 [] (by decide)
      (by decide) (by decide)
    exact h.trans (by decide)
  · exact C8_pick_one_behavior.2.2.2.1 ["x", "y"] "9" ["1"] (by decide)
      (by decide) (Or.inr ⟨9, by decide, Or.inr (by decide)⟩)

/-- C9: process exit codes — `exit_with_error` (every reported load/validation
error) exits with code 1, `exit_with_success` exits with code 0, and
end-of-input while the picker is awaiting a choice on a list it actually
prompts for ends the process via `sys.exit(0)` without returning a value. -/
theorem C9_exit_codes :
    (∀ (message : String) (path : Option String),
      (exit_with_error message path).2 = 1) ∧
    (∀ message : String, (exit_with_success message).2 = 0) ∧
    (∀ l : List String, l.length ≠ 1 →
      pick_one l ([] : List String) = PickResult.exitZero ∧
      pickExitCode (pick_one l ([] : List String)) = some 0) := by
  refine ⟨fun _ _ => rfl, fun _ => rfl, ?_⟩
  intro l hl
  unfold pick_one
  rw [dif_neg hl]
  exact ⟨rfl, rfl⟩

/-- C9 witness: the picker part of the theorem at the concrete two-element
list with exhausted input. -/
theorem C9_witness :
    pick_one (["x", "y"] : List String) ([] : List String) =
      PickResult.exitZero ∧
    pickExitCode (pick_one (["x", "y"] : List String) ([] : List String)) =
      some 0 :=
  C9_exit_codes.2.2 ["x", "y"] (by decide)
